import Mathlib

/-!
Verification of the go-h264-streamer repository.

The development shallowly embeds the two core components of the program:

* the stream reframer of stream/streaming.go (function startCamera):
  a read loop that appends each chunk read from the camera process into a
  fixed-capacity buffer, scans a tail window of the buffer for the 4-byte
  NAL separator, and on a match at a window index greater than 0 emits the
  bytes before the match and shifts the rest to the front of the buffer;

* the websocket hub of websocket_handler.go: the run event loop that owns
  the membership set (register / unregister / broadcast) and the Write
  method that short-circuits when no connection is registered;

* the control loop of stream.Video, which consumes subscriber-count
  signals and starts or stops the producer session, and an interleaving
  model of the sync.Mutex that guards the producer start/stop boundary.

Bytes are modelled as Nat, byte slices as List Nat; overflow plays no
role because the program only compares bytes for equality.
-/

namespace H264Streamer

/-- The NAL separator {0, 0, 0, 1}, from streaming.go: var nalSeparator. -/
def nalSeparator : List Nat := [0, 0, 0, 1]

/-- NALlen := len(nalSeparator), streaming.go line 102. -/
def sepLen : Nat := nalSeparator.length

/-- bufferSizeKB = 256, streaming.go line 15. -/
def bufferSizeKB : Nat := 256

/-- Capacity of the reframe buffer: make([]byte, bufferSizeKB*1024). -/
def bufferSize : Nat := bufferSizeKB * 1024

/-- readBufferSize = 4096, streaming.go line 14 (size of the chunk slice p). -/
def readBufferSize : Nat := 4096

/-- Whether pat occurs at the head of l (used to embed bytes.Index). -/
def listStartsWith (l pat : List Nat) : Bool := l.take pat.length == pat

/-- Embedding of Go bytes.Index: the lowest index at which pat occurs in s,
or none when pat does not occur (Go returns -1). -/
def bytesIndex : List Nat → List Nat → Option Nat
  | [], pat => if listStartsWith [] pat then some 0 else none
  | a :: rest, pat =>
    if listStartsWith (a :: rest) pat then some 0
    else (bytesIndex rest pat).map (fun i => i + 1)

/-- The buffer contents after one read of chunk p, streaming.go line 120:
copied := copy(buffer[currentPos:], p[:n]) writes at most the remaining
capacity, silently dropping the excess bytes of p.  The state buf is the
valid prefix buffer[0:currentPos] of the Go buffer, so currentPos =
buf.length. -/
def stepAppended (buf p : List Nat) : List Nat :=
  buf ++ p.take (bufferSize - buf.length)

/-- The delimiter scan of one iteration, streaming.go lines 121-127:
startPosSearch := currentPos - NALlen (clamped at 0 by the if on line 124,
which Nat subtraction performs), endPos := currentPos + copied, and
nalIndex := bytes.Index(buffer[startPosSearch:endPos], nalSeparator).
The result is the window-relative match index. -/
def stepScan (buf p : List Nat) : Option Nat :=
  bytesIndex ((stepAppended buf p).drop (buf.length - sepLen)) nalSeparator

/-- One iteration of the read loop of startCamera, streaming.go lines
120-141, on a chunk p actually read: append, scan, and when the scan hits
at window index nalIndex > 0, broadcast buffer[0:nalIndex+startPosSearch]
and shift buffer[nalIndex+startPosSearch:currentPos] to the front.
Returns the new buffer contents and the emitted frame, if any. -/
def cameraStep (buf p : List Nat) : List Nat × Option (List Nat) :=
  match stepScan buf p with
  | some relIdx =>
    if 0 < relIdx then
      ((stepAppended buf p).drop (relIdx + (buf.length - sepLen)),
       some ((stepAppended buf p).take (relIdx + (buf.length - sepLen))))
    else (stepAppended buf p, none)
  | none => (stepAppended buf p, none)

/-- The read loop run over a finite sequence of reads (the chunks returned
by stdout.Read before EOF): final buffer contents and emitted frames in
order. -/
def cameraRun : List Nat → List (List Nat) → List Nat × List (List Nat)
  | buf, [] => (buf, [])
  | buf, p :: ps =>
    ((cameraRun (cameraStep buf p).1 ps).1,
     (cameraStep buf p).2.toList ++ (cameraRun (cameraStep buf p).1 ps).2)

/-- A variant of the read-loop iteration whose scan window starts at
wstart currentPos instead of the source's currentPos - NALlen; used to
compare the source against the window the specification describes. -/
def cameraStepW (wstart : Nat → Nat) (buf p : List Nat) :
    List Nat × Option (List Nat) :=
  match bytesIndex ((stepAppended buf p).drop (wstart buf.length)) nalSeparator with
  | some relIdx =>
    if 0 < relIdx then
      ((stepAppended buf p).drop (relIdx + wstart buf.length),
       some ((stepAppended buf p).take (relIdx + wstart buf.length)))
    else (stepAppended buf p, none)
  | none => (stepAppended buf p, none)

/-- Modelled from the spec words of the claim: a read-loop iteration whose
scan region is [currentPos - (separatorLength - 1), currentPos + justRead]
clamped at 0, i.e. the window starts len(separator) - 1 = 3 bytes before
the newly written region. -/
def cameraStepSpecWindow (buf p : List Nat) : List Nat × Option (List Nat) :=
  cameraStepW (fun c => c - (sepLen - 1)) buf p

/-- Producer lifecycle events emitted by the control loop of stream.Video:
spawning a startCamera session (go startCamera) or signalling it to stop
(stopChan). -/
inductive VEvent
  | start
  | stop
deriving DecidableEq

/-- One iteration of the control loop of stream.Video, streaming.go lines
41-49, on subscriber-count signal n with flag firstConnection = fc:
n = 0 resets firstConnection and sends on stopChan; otherwise a session
is spawned only when firstConnection was set. Returns the new flag and
the event performed, if any. -/
def videoStep (fc : Bool) (n : Nat) : Bool × Option VEvent :=
  if n = 0 then (true, some VEvent.stop)
  else if fc then (false, some VEvent.start)
  else (fc, none)

/-- The events of the control loop over a list of subscriber-count
signals, one entry per consumed signal; the flag starts at true. -/
def videoTrace : Bool → List Nat → List (Option VEvent)
  | _, [] => []
  | fc, n :: ns => (videoStep fc n).2 :: videoTrace (videoStep fc n).1 ns

/-- The firstConnection flag after consuming the given signals. -/
def fcAfter : Bool → List Nat → Bool
  | fc, [] => fc
  | fc, n :: ns => fcAfter (videoStep fc n).1 ns

/-- Phase of one startCamera session: waiting to acquire the cameraStarted
mutex, holding it (the producer session is active), or finished (the
mutex was released by the deferred Unlock, which runs only after the
deferred cancel and cmd.Wait have torn the producer process down). -/
inductive SessPhase
  | waiting
  | active
  | finished

/-- Global state of the producer sessions spawned by stream.Video: n
sessions spawned so far, ph i the phase of session i (indices at or
beyond n are not yet spawned and stay at finished). -/
structure MState where
  n : Nat
  ph : Nat → SessPhase

/-- Interleaving semantics of the spawn / Lock / Unlock boundary of
startCamera: go startCamera spawns a waiting session; a waiting session
acquires the mutex only while no session holds it (mutex.Lock,
streaming.go line 53); an active session finishes by releasing the mutex
(the deferred mutex.Unlock on line 54, which runs last among the
defers). -/
inductive MStep : MState → MState → Prop
  | spawn (s : MState) :
      MStep s ⟨s.n + 1, fun j => if j = s.n then SessPhase.waiting else s.ph j⟩
  | acquire (s : MState) (i : Nat) (hi : i < s.n)
      (hw : s.ph i = SessPhase.waiting)
      (hfree : ∀ j, j < s.n → s.ph j ≠ SessPhase.active) :
      MStep s ⟨s.n, fun j => if j = i then SessPhase.active else s.ph j⟩
  | release (s : MState) (i : Nat) (hi : i < s.n)
      (ha : s.ph i = SessPhase.active) :
      MStep s ⟨s.n, fun j => if j = i then SessPhase.finished else s.ph j⟩

/-- States reachable from the initial state (no session spawned). -/
inductive MReach : MState → Prop
  | init : MReach ⟨0, fun _ => SessPhase.finished⟩
  | step {s t : MState} : MReach s → MStep s t → MReach t

/-- Events processed by the hub run event loop of websocket_handler.go: a
connection arriving on the register channel, one on the unregister
channel, or a frame on the broadcast channel.  Connections are identified
by tokens. -/
inductive HEvent
  | reg (c : Nat)
  | unreg (c : Nat)
  | bcast (m : List Nat)

/-- State of the webSocketHandler owned by the run loop: the membership
set (the keys of the connections map), how many times close has been
called on each connection's outbound mailbox, and the subscriber counts
sent on the connectionNumber channel. -/
structure Hub where
  conns : List Nat
  closedCount : Nat → Nat
  signals : List Nat

/-- The hub before any event: empty connections map. -/
def emptyHub : Hub := ⟨[], fun _ => 0, []⟩

/-- The register branch of run (websocket_handler.go lines 109-116):
connections[c] = true, then the new size is sent on connectionNumber. -/
def hubRegister (h : Hub) (c : Nat) : Hub :=
  ⟨if c ∈ h.conns then h.conns else h.conns ++ [c],
   h.closedCount,
   h.signals ++ [(if c ∈ h.conns then h.conns else h.conns ++ [c]).length]⟩

/-- The unregister branch of run (websocket_handler.go lines 118-127): if
the connection is a key of the map it is deleted and close(c.send) is
called; the new size is then sent on connectionNumber in both cases. -/
def hubUnregister (h : Hub) (c : Nat) : Hub :=
  if c ∈ h.conns then
    ⟨h.conns.filter (fun x => x ≠ c),
     fun x => if x = c then h.closedCount x + 1 else h.closedCount x,
     h.signals ++ [(h.conns.filter (fun x => x ≠ c)).length]⟩
  else
    ⟨h.conns, h.closedCount, h.signals ++ [h.conns.length]⟩

/-- One run-loop event.  The broadcast branch only fans the frame out to
the mailboxes of current members; it does not change the membership
state, the close counts, or the count signals. -/
def hubStep (h : Hub) : HEvent → Hub
  | HEvent.reg c => hubRegister h c
  | HEvent.unreg c => hubUnregister h c
  | HEvent.bcast _ => h

/-- The run event loop over a list of events. -/
def hubRun : Hub → List HEvent → Hub
  | h, [] => h
  | h, e :: es => hubRun (hubStep h e) es

/-- The connection ids registered by a list of events, in order. -/
def regIds : List HEvent → List Nat
  | [] => []
  | HEvent.reg c :: es => c :: regIds es
  | HEvent.unreg _ :: es => regIds es
  | HEvent.bcast _ :: es => regIds es

/-- Invariant tying a hub state to the set of ids registered so far: the
membership set has no duplicate keys, every mailbox is closed at most
once, a member's mailbox is still open, and only registered ids can be
members or have closed mailboxes. -/
def HubOK (h : Hub) (seen : List Nat) : Prop :=
  h.conns.Nodup ∧
    ∀ c, h.closedCount c ≤ 1 ∧
      (c ∈ h.conns → h.closedCount c = 0) ∧
      (c ∈ h.conns → c ∈ seen) ∧
      (1 ≤ h.closedCount c → c ∈ seen)

/-- webSocketHandler.Write, websocket_handler.go lines 147-156: given the
current membership set, returns the reported byte count, the messages
sent into the event loop's broadcast channel, and the subscriber-count
signals emitted (Write never emits any).  With no registered connection
it short-circuits before touching the broadcast channel and returns the
zero value of n. -/
def hubWrite (conns : List Nat) (data : List Nat) :
    Nat × List (List Nat) × List Nat :=
  if conns.length ≤ 0 then (0, [], [])
  else (data.length, [data], [])

lemma startsWith_eq_take {l pat : List Nat} (h : listStartsWith l pat = true) :
    l.take pat.length = pat := by
  simpa [listStartsWith] using h

lemma startsWith_length_le {l pat : List Nat} (h : listStartsWith l pat = true) :
    pat.length ≤ l.length := by
  have h3 : (l.take pat.length).length = pat.length := by
    rw [startsWith_eq_take h]
  rw [List.length_take] at h3
  exact h3 ▸ Nat.min_le_right pat.length l.length

lemma startsWith_append {l pat : List Nat} (l2 : List Nat)
    (h : listStartsWith l pat = true) : listStartsWith (l ++ l2) pat = true := by
  have hlen := startsWith_length_le h
  have ht := startsWith_eq_take h
  simp only [listStartsWith, beq_iff_eq]
  rw [List.take_append_eq_append_take, ht, Nat.sub_eq_zero_of_le hlen]
  simp

lemma startsWith_take {l pat : List Nat} (n : Nat)
    (h : listStartsWith l pat = true) (hn : pat.length ≤ n) :
    listStartsWith (l.take n) pat = true := by
  have ht := startsWith_eq_take h
  simp only [listStartsWith, beq_iff_eq]
  rw [List.take_take, Nat.min_eq_left hn, ht]

lemma startsWith_get {l pat : List Nat} (m : Nat)
    (h : listStartsWith l pat = true) (hm : m < pat.length) :
    l.get? m = pat.get? m := by
  have ht := startsWith_eq_take h
  have h2 := List.get?_take (l := l) hm
  rw [ht] at h2
  exact h2.symm

lemma bytesIndex_some_startsWith :
    ∀ (s : List Nat) (pat : List Nat) (i : Nat), bytesIndex s pat = some i →
      listStartsWith (s.drop i) pat = true := by
  intro s
  induction s with
  | nil =>
    intro pat i h
    unfold bytesIndex at h
    by_cases hs : listStartsWith [] pat = true
    · simp only [hs, if_true, Option.some_inj] at h
      subst h
      simpa using hs
    · simp [hs] at h
  | cons a rest ih =>
    intro pat i h
    unfold bytesIndex at h
    by_cases hs : listStartsWith (a :: rest) pat = true
    · simp only [hs, if_true, Option.some_inj] at h
      subst h
      simpa using hs
    · simp only [hs, if_false] at h
      cases hb : bytesIndex rest pat with
      | none => rw [hb] at h; simp at h
      | some j =>
        rw [hb] at h
        simp at h
        subst h
        rw [List.drop_succ_cons]
        exact ih pat j hb

lemma bytesIndex_ne_none {s pat : List Nat} (q : Nat)
    (h : listStartsWith (s.drop q) pat = true) : bytesIndex s pat ≠ none := by
  induction s generalizing q with
  | nil =>
    rw [List.drop_nil] at h
    unfold bytesIndex
    simp [h]
  | cons a rest ih =>
    unfold bytesIndex
    by_cases hs : listStartsWith (a :: rest) pat = true
    · simp [hs]
    · cases q with
      | zero => rw [List.drop_zero] at h; exact absurd h hs
      | succ q2 =>
        rw [List.drop_succ_cons] at h
        have hne := ih q2 h
        cases hb : bytesIndex rest pat with
        | none => exact absurd hb hne
        | some j => simp [hs, hb]

/-- Claim C1, counterexample: the end-to-end scenario input
"AB" + SEP + "C" + SEP + "DEF" delivered in a single read does not yield
the emitted frames ["AB", "C"] claimed by the specification: the read-loop
iteration carves only the first in-window delimiter. -/
theorem c1_counterexample :
    (cameraRun [] [[65, 66, 0, 0, 0, 1, 67, 0, 0, 0, 1, 68, 69, 70]]).2 ≠
      [[65, 66], [67]] := by decide

/-- Claim C1, amended: the scenario input delivered in a single read yields
the single emitted frame "AB" and leaves residual buffer
SEP + "C" + SEP + "DEF"; each read iteration carves at most the first
delimiter found in its search window, and delimiters that remain behind
the search window are not carved by later scans. -/
theorem c1_single_read_scenario :
    cameraRun [] [[65, 66, 0, 0, 0, 1, 67, 0, 0, 0, 1, 68, 69, 70]] =
      ([0, 0, 0, 1, 67, 0, 0, 0, 1, 68, 69, 70], [[65, 66]]) := by decide

/-- Claim C3, counterexample: the scan is not performed over the region
[currentPos - (separatorLength - 1), currentPos + justRead]: on the buffer
state {9, 0, 0, 0, 1} with incoming chunk {0, 0, 0, 1} the source
iteration emits nothing (its window starts 4 bytes back, so the match
lands at window index 0 and is skipped), while an iteration scanning the
claimed region emits the frame {9, 0, 0, 0, 1}. -/
theorem c3_counterexample :
    cameraStep [9, 0, 0, 0, 1] [0, 0, 0, 1] ≠
      cameraStepSpecWindow [9, 0, 0, 0, 1] [0, 0, 0, 1] := by decide

/-- Claim C3, amended: on every read-loop iteration the delimiter scan is
performed over the region [currentPos - separatorLength, currentPos +
copied] of the buffer, with the lower bound clamped at 0: the search
window starts len(separator) = 4 bytes before the newly written region
(not 3), and the bytes written are the read bytes capped by the remaining
capacity. -/
theorem c3_scan_window_starts_seplen_back (buf p : List Nat) :
    cameraStep buf p = cameraStepW (fun c => c - sepLen) buf p := rfl

/-- Claim C4, counterexample: the same bytes delivered in one read and in
two reads that split the second separator (2 bytes, then 2 bytes) produce
different emitted frame sequences, so the emitted boundaries are not
identical across the two deliveries. -/
theorem c4_counterexample :
    [65, 66, 0, 0, 0, 1, 67, 0, 0] ++ [0, 1, 68] =
        [65, 66, 0, 0, 0, 1, 67, 0, 0, 0, 1, 68] ∧
      (cameraRun [] [[65, 66, 0, 0, 0, 1, 67, 0, 0], [0, 1, 68]]).2 ≠
        (cameraRun [] [[65, 66, 0, 0, 0, 1, 67, 0, 0, 0, 1, 68]]).2 :=
  ⟨rfl, by decide⟩

/-- Claim C4, amended: a separator whose bytes arrive split across two
consecutive reads is still detected via the overlap window: every
separator occurrence that starts in the old bytes and ends in the newly
read bytes lies inside the scan window, so the scan of that iteration
reports a match.  The emitted frame boundaries, however, are not in
general identical to the single-read delivery (see the counterexample). -/
theorem c4_split_separator_detected (buf p : List Nat) (q : Nat)
    (hq : listStartsWith ((stepAppended buf p).drop q) nalSeparator = true)
    (hqlt : q < buf.length) (hsplit : buf.length < q + sepLen) :
    stepScan buf p ≠ none := by
  have hsep : sepLen = 4 := rfl
  have hs : buf.length - sepLen ≤ q := by omega
  apply bytesIndex_ne_none (q - (buf.length - sepLen))
  rw [List.drop_drop]
  have : buf.length - sepLen + (q - (buf.length - sepLen)) = q := by omega
  rw [this]
  exact hq

/-- Witness for c4_split_separator_detected at a concrete split: old
buffer "AB" + {0,0}, new chunk {0,1} + "C", separator occurrence at
index 2. -/
theorem c4_split_separator_detected_witness :
    listStartsWith ((stepAppended [65, 66, 0, 0] [0, 1, 67]).drop 2)
        nalSeparator = true ∧
      2 < ([65, 66, 0, 0] : List Nat).length ∧
      ([65, 66, 0, 0] : List Nat).length < 2 + sepLen ∧
      stepScan [65, 66, 0, 0] [0, 1, 67] ≠ none :=
  ⟨by decide, by decide, by decide,
    c4_split_separator_detected [65, 66, 0, 0] [0, 1, 67] 2
      (by decide) (by decide) (by decide)⟩

lemma cameraStep_emit {buf p b2 f : List Nat}
    (h : cameraStep buf p = (b2, some f)) :
    ∃ rel, stepScan buf p = some rel ∧ 0 < rel ∧
      f = (stepAppended buf p).take (rel + (buf.length - sepLen)) ∧
      b2 = (stepAppended buf p).drop (rel + (buf.length - sepLen)) := by
  unfold cameraStep at h
  cases hsc : stepScan buf p with
  | none => rw [hsc] at h; simp at h
  | some rel =>
    simp only [hsc] at h
    by_cases hrel : 0 < rel
    · rw [if_pos hrel] at h
      simp only [Prod.mk.injEq, Option.some_inj] at h
      exact ⟨rel, rfl, hrel, h.2.symm, h.1.symm⟩
    · rw [if_neg hrel] at h
      simp at h

lemma cameraStep_no_emit {buf p b2 : List Nat}
    (h : cameraStep buf p = (b2, none)) : b2 = stepAppended buf p := by
  unfold cameraStep at h
  cases hsc : stepScan buf p with
  | none =>
    rw [hsc] at h
    simp only [Prod.mk.injEq] at h
    exact h.1.symm
  | some rel =>
    simp only [hsc] at h
    by_cases hrel : 0 < rel
    · rw [if_pos hrel] at h; simp at h
    · rw [if_neg hrel] at h
      simp only [Prod.mk.injEq] at h
      exact h.1.symm

lemma sep_match_ge_four {A : List Nat} (hA : listStartsWith A nalSeparator = true)
    {j : Nat} (hj1 : 1 ≤ j) (hm : listStartsWith (A.drop j) nalSeparator = true) :
    4 ≤ j := by
  by_contra hlt
  push_neg at hlt
  have h1 : A.get? 3 = some 1 := by
    have hg := startsWith_get (l := A) 3 hA (by decide)
    simpa [nalSeparator] using hg
  have hsep0 : ∀ m < 3, nalSeparator.get? m = some 0 := by decide
  have h0 : A.get? 3 = some 0 := by
    have hg := startsWith_get (l := A.drop j) (3 - j) hm (by simp [nalSeparator]; omega)
    rw [List.get?_drop] at hg
    have hj3 : j + (3 - j) = 3 := by omega
    rw [hj3] at hg
    rw [hg]
    exact hsep0 (3 - j) (by omega)
  rw [h1] at h0
  simp at h0

lemma emit_new_buffer_sep {buf p b2 f : List Nat}
    (h : cameraStep buf p = (b2, some f)) :
    listStartsWith b2 nalSeparator = true := by
  obtain ⟨rel, hsc, hrel, hf, hb⟩ := cameraStep_emit h
  have h1 := bytesIndex_some_startsWith _ _ _ hsc
  rw [List.drop_drop] at h1
  rw [hb, Nat.add_comm rel (buf.length - sepLen)]
  exact h1

lemma emit_frame_sep {buf p b2 f : List Nat}
    (hbuf : listStartsWith buf nalSeparator = true)
    (h : cameraStep buf p = (b2, some f)) :
    listStartsWith f nalSeparator = true := by
  obtain ⟨rel, hsc, hrel, hf, hb⟩ := cameraStep_emit h
  have hA : listStartsWith (stepAppended buf p) nalSeparator = true :=
    startsWith_append _ hbuf
  have h1 := bytesIndex_some_startsWith _ _ _ hsc
  rw [List.drop_drop] at h1
  have hj : 4 ≤ buf.length - sepLen + rel :=
    sep_match_ge_four hA (by omega) h1
  subst hf
  apply startsWith_take _ hA
  have hlen4 : nalSeparator.length = 4 := rfl
  omega

lemma step_preserves_sep {buf p : List Nat}
    (hbuf : listStartsWith buf nalSeparator = true) :
    listStartsWith (cameraStep buf p).1 nalSeparator = true := by
  have heta : cameraStep buf p = ((cameraStep buf p).1, (cameraStep buf p).2) := rfl
  cases hof : (cameraStep buf p).2 with
  | none =>
    rw [hof] at heta
    rw [cameraStep_no_emit heta]
    exact startsWith_append _ hbuf
  | some f0 =>
    rw [hof] at heta
    exact emit_new_buffer_sep heta

lemma run_frames_sep (reads : List (List Nat)) :
    ∀ buf, listStartsWith buf nalSeparator = true →
      ∀ f ∈ (cameraRun buf reads).2, listStartsWith f nalSeparator = true := by
  induction reads with
  | nil =>
    intro buf hbuf f hf
    simp [cameraRun] at hf
  | cons p ps ih =>
    intro buf hbuf f hf
    simp only [cameraRun] at hf
    rcases List.mem_append.mp hf with hf1 | hf2
    · cases hof : (cameraStep buf p).2 with
      | none => rw [hof] at hf1; simp at hf1
      | some f0 =>
        rw [hof] at hf1
        simp at hf1
        subst hf1
        have heta : cameraStep buf p = ((cameraStep buf p).1, some f) := by
          rw [← hof]
        exact emit_frame_sep hbuf heta
    · exact ih (cameraStep buf p).1 (step_preserves_sep hbuf) f hf2

lemma run_later_frames_sep (reads : List (List Nat)) :
    ∀ buf i f, 1 ≤ i → ((cameraRun buf reads).2).get? i = some f →
      listStartsWith f nalSeparator = true := by
  induction reads with
  | nil =>
    intro buf i f hi hf
    simp [cameraRun] at hf
  | cons p ps ih =>
    intro buf i f hi hf
    simp only [cameraRun] at hf
    cases hof : (cameraStep buf p).2 with
    | none =>
      rw [hof] at hf
      simp only [Option.toList_none, List.nil_append] at hf
      exact ih (cameraStep buf p).1 i f hi hf
    | some f0 =>
      rw [hof] at hf
      cases i with
      | zero => omega
      | succ i2 =>
        simp only [Option.toList_some, List.cons_append,
          List.get?_cons_succ] at hf
        have hmem := List.get?_mem hf
        have heta : cameraStep buf p = ((cameraStep buf p).1, some f0) := by
          rw [← hof]
        exact run_frames_sep ps (cameraStep buf p).1
          (emit_new_buffer_sep heta) f hmem

/-- Claim C2, counterexample: on the reads "AB" + SEP + "C" followed by
SEP + "D", the second delivered frame is SEP + "C": a frame other than
the very first one contains (indeed begins with) the 4-byte start code,
so the start code is not consumed without being retransmitted. -/
theorem c2_counterexample :
    (cameraRun [] [[65, 66, 0, 0, 0, 1, 67], [0, 0, 0, 1, 68]]).2 =
        [[65, 66], [0, 0, 0, 1, 67]] ∧
      listStartsWith [0, 0, 0, 1, 67] nalSeparator = true :=
  ⟨by decide, by decide⟩

/-- Claim C2, amended: the first emitted frame is the bytes that preceded
the first carved delimiter, and every frame the reframer delivers after
the first one BEGINS with the 4-byte start code {0,0,0,1}: the shift
keeps the separator at the head of the buffer, so it is retransmitted at
the head of the following frame rather than consumed. -/
theorem c2_later_frames_begin_with_sep (reads : List (List Nat)) (i : Nat)
    (f : List Nat) (hi : 1 ≤ i)
    (hf : ((cameraRun [] reads).2).get? i = some f) :
    listStartsWith f nalSeparator = true :=
  run_later_frames_sep reads [] i f hi hf

/-- Witness for c2_later_frames_begin_with_sep: the second frame of the
two-read trace of the counterexample begins with the separator. -/
theorem c2_later_frames_begin_with_sep_witness :
    (1 : Nat) ≤ 1 ∧
      ((cameraRun [] [[65, 66, 0, 0, 0, 1, 67], [0, 0, 0, 1, 68]]).2).get? 1 =
        some [0, 0, 0, 1, 67] ∧
      listStartsWith [0, 0, 0, 1, 67] nalSeparator = true :=
  ⟨by decide, by decide,
    c2_later_frames_begin_with_sep [[65, 66, 0, 0, 0, 1, 67], [0, 0, 0, 1, 68]]
      1 [0, 0, 0, 1, 67] (by decide) (by decide)⟩

/-- Claim C5: a delimiter match at index 0 of the search window causes no
frame to be emitted (the buffer only grows by the read bytes), and no
emitted frame is ever the zero-length frame. -/
theorem c5_no_empty_frames (buf p : List Nat) :
    (stepScan buf p = some 0 → cameraStep buf p = (stepAppended buf p, none)) ∧
      ∀ f, (cameraStep buf p).2 = some f → f ≠ [] := by
  constructor
  · intro h
    unfold cameraStep
    rw [h]
    simp
  · intro f hf
    have heta : cameraStep buf p = ((cameraStep buf p).1, some f) := by
      rw [← hf]
    obtain ⟨rel, hsc, hrel, hfe, hb⟩ := cameraStep_emit heta
    have h1 := bytesIndex_some_startsWith _ _ _ hsc
    have hlen := startsWith_length_le h1
    subst hfe
    intro hnil
    rw [List.take_eq_nil_iff] at hnil
    rcases hnil with h0 | hA
    · omega
    · rw [hA] at hlen
      simp [nalSeparator] at hlen

/-- Witness for c5_no_empty_frames: right after a shift the buffer is
exactly the separator; the next scan matches at window index 0 and the
iteration emits nothing. -/
theorem c5_no_empty_frames_witness :
    stepScan [0, 0, 0, 1] [65] = some 0 ∧
      cameraStep [0, 0, 0, 1] [65] = ([0, 0, 0, 1, 65], none) :=
  ⟨by decide, by
    have h := (c5_no_empty_frames [0, 0, 0, 1] [65]).1 (by decide)
    exact h.trans (by decide)⟩

lemma videoStep_fst (fc : Bool) (n : Nat) :
    (videoStep fc n).1 = decide (n = 0) := by
  unfold videoStep
  by_cases h : n = 0
  · simp [h]
  · by_cases hfc : fc <;> simp [h, hfc]

lemma videoTrace_get (sig : List Nat) :
    ∀ (fc : Bool) (i : Nat), i < sig.length →
      (videoTrace fc sig).get? i =
        some (videoStep (fcAfter fc (sig.take i)) (sig.getD i 0)).2 := by
  induction sig with
  | nil => intro fc i hi; simp at hi
  | cons n ns ih =>
    intro fc i hi
    cases i with
    | zero => simp [videoTrace, fcAfter]
    | succ i2 =>
      simp only [videoTrace, List.get?_cons_succ]
      have hi2 : i2 < ns.length := by simpa using hi
      rw [ih (videoStep fc n).1 i2 hi2]
      simp [fcAfter, List.take_succ_cons, List.getD_cons_succ]

lemma fcAfter_take (sig : List Nat) :
    ∀ (fc : Bool) (i : Nat), 0 < i → i ≤ sig.length →
      fcAfter fc (sig.take i) = decide (sig.getD (i - 1) 0 = 0) := by
  induction sig with
  | nil => intro fc i h0 hle; simp at hle; omega
  | cons n ns ih =>
    intro fc i h0 hle
    cases i with
    | zero => omega
    | succ i2 =>
      simp only [List.take_succ_cons, fcAfter]
      cases i2 with
      | zero => simp [fcAfter, videoStep_fst]
      | succ j =>
        have hle2 : j + 1 ≤ ns.length := by simpa using hle
        rw [ih (videoStep fc n).1 (j + 1) (Nat.succ_pos j) hle2]
        simp

/-- Claim C6: on the subscriber-count signal stream consumed by the
control loop of stream.Video, a transition from zero (or from the start,
where the implicit count is zero) to a nonzero count triggers exactly one
producer start; a signal of zero triggers exactly one stop; and a nonzero
count following a nonzero count (for example a second registration while
a producer is active) triggers no event at all, in particular no
additional start. -/
theorem c6_subscriber_count_edges (sig : List Nat) (i : Nat)
    (hi : i < sig.length) :
    (sig.getD i 0 ≠ 0 → (i = 0 ∨ sig.getD (i - 1) 0 = 0) →
        (videoTrace true sig).get? i = some (some VEvent.start)) ∧
      (sig.getD i 0 = 0 →
        (videoTrace true sig).get? i = some (some VEvent.stop)) ∧
      (0 < i → sig.getD (i - 1) 0 ≠ 0 → sig.getD i 0 ≠ 0 →
        (videoTrace true sig).get? i = some none) := by
  refine ⟨?_, ?_, ?_⟩
  · intro hn hprev
    rw [videoTrace_get sig true i hi]
    have hfc : fcAfter true (sig.take i) = true := by
      by_cases hi0 : i = 0
      · subst hi0; simp [fcAfter]
      · have hpos : 0 < i := Nat.pos_of_ne_zero hi0
        rcases hprev with h0 | hz
        · exact absurd h0 hi0
        · rw [fcAfter_take sig true i hpos (le_of_lt hi)]
          exact decide_eq_true hz
    rw [hfc]
    unfold videoStep
    rw [if_neg hn]
    simp
  · intro hn
    rw [videoTrace_get sig true i hi]
    unfold videoStep
    rw [if_pos hn]
  · intro hpos hprev hn
    rw [videoTrace_get sig true i hi]
    have hfc : fcAfter true (sig.take i) = false := by
      rw [fcAfter_take sig true i hpos (le_of_lt hi)]
      exact decide_eq_false hprev
    rw [hfc]
    unfold videoStep
    rw [if_neg hn]
    simp

/-- Witness for c6_subscriber_count_edges on the signal stream
[1, 2, 0, 1]: the first registration starts the producer, the second
registration triggers nothing, the drop to zero stops it. -/
theorem c6_subscriber_count_edges_witness :
    (0 : Nat) < 4 ∧
      (videoTrace true [1, 2, 0, 1]).get? 0 = some (some VEvent.start) ∧
      (videoTrace true [1, 2, 0, 1]).get? 1 = some none ∧
      (videoTrace true [1, 2, 0, 1]).get? 2 = some (some VEvent.stop) :=
  ⟨by decide,
    (c6_subscriber_count_edges [1, 2, 0, 1] 0 (by decide)).1 (by decide)
      (Or.inl rfl),
    (c6_subscriber_count_edges [1, 2, 0, 1] 1 (by decide)).2.2 (by decide)
      (by decide) (by decide),
    (c6_subscriber_count_edges [1, 2, 0, 1] 2 (by decide)).2.1 (by decide)⟩

lemma mstep_inv {s t : MState} (hst : MStep s t)
    (hOut : ∀ j, s.n ≤ j → s.ph j = SessPhase.finished)
    (hUniq : ∀ i j, s.ph i = SessPhase.active → s.ph j = SessPhase.active → i = j) :
    (∀ j, t.n ≤ j → t.ph j = SessPhase.finished) ∧
      ∀ i j, t.ph i = SessPhase.active → t.ph j = SessPhase.active → i = j := by
  cases hst with
  | spawn =>
    constructor
    · intro j hj
      dsimp only at hj ⊢
      have hjn : j ≠ s.n := by omega
      rw [if_neg hjn]
      exact hOut j (by omega)
    · intro i j hi hj
      dsimp only at hi hj
      by_cases hin : i = s.n
      · rw [if_pos hin] at hi
        exact absurd hi (by simp)
      · by_cases hjn : j = s.n
        · rw [if_pos hjn] at hj
          exact absurd hj (by simp)
        · rw [if_neg hin] at hi
          rw [if_neg hjn] at hj
          exact hUniq i j hi hj
  | acquire i0 hi0 hw hfree =>
    constructor
    · intro j hj
      dsimp only at hj ⊢
      have hji : j ≠ i0 := by omega
      rw [if_neg hji]
      exact hOut j hj
    · intro i j hi hj
      dsimp only at hi hj
      by_cases hii : i = i0
      · by_cases hjj : j = i0
        · rw [hii, hjj]
        · exfalso
          rw [if_neg hjj] at hj
          by_cases hjn : j < s.n
          · exact hfree j hjn hj
          · have hfin := hOut j (by omega)
            rw [hfin] at hj
            exact SessPhase.noConfusion hj
      · exfalso
        rw [if_neg hii] at hi
        by_cases hin : i < s.n
        · exact hfree i hin hi
        · have hfin := hOut i (by omega)
          rw [hfin] at hi
          exact SessPhase.noConfusion hi
  | release i0 hi0 ha =>
    constructor
    · intro j hj
      dsimp only at hj ⊢
      by_cases hji : j = i0
      · rw [if_pos hji]
      · rw [if_neg hji]
        exact hOut j hj
    · intro i j hi hj
      dsimp only at hi hj
      by_cases hii : i = i0
      · rw [if_pos hii] at hi
        exact absurd hi (by simp)
      · by_cases hjj : j = i0
        · rw [if_pos hjj] at hj
          exact absurd hj (by simp)
        · rw [if_neg hii] at hi
          rw [if_neg hjj] at hj
          exact hUniq i j hi hj

lemma mreach_inv {s : MState} (h : MReach s) :
    (∀ j, s.n ≤ j → s.ph j = SessPhase.finished) ∧
      ∀ i j, s.ph i = SessPhase.active → s.ph j = SessPhase.active → i = j := by
  induction h with
  | init =>
    exact ⟨fun j _ => rfl, fun i j hi hj => SessPhase.noConfusion hi⟩
  | step hr hst ih =>
    exact mstep_inv hst ih.1 ih.2

/-- Claim C7: in every reachable state of the interleaving model of the
producer sessions, at most one session is active: two active session
indices are equal.  The mutual exclusion comes from the acquire guard,
which is the sync.Mutex around the spawn/stop boundary of startCamera. -/
theorem c7_at_most_one_active_producer {s : MState} (h : MReach s)
    (i j : Nat) (hi : s.ph i = SessPhase.active)
    (hj : s.ph j = SessPhase.active) : i = j :=
  (mreach_inv h).2 i j hi hj

/-- Witness for c7_at_most_one_active_producer: spawn one session from
the initial state and let it acquire the mutex; it is active, and the
theorem applied to that reachable state gives 0 = 0. -/
theorem c7_at_most_one_active_producer_witness :
    (MState.mk 1 (fun j =>
        if j = 0 then SessPhase.active
        else if j = 0 then SessPhase.waiting else SessPhase.finished)).ph 0 =
      SessPhase.active ∧ (0 : Nat) = 0 := by
  have h0 : MReach ⟨0, fun _ => SessPhase.finished⟩ := MReach.init
  have h1 := MReach.step h0 (MStep.spawn ⟨0, fun _ => SessPhase.finished⟩)
  have hacq := MStep.acquire
    ⟨1, fun j => if j = 0 then SessPhase.waiting else SessPhase.finished⟩
    0 Nat.one_pos rfl
    (by
      intro j hj hc
      have hj0 : j = 0 := Nat.lt_one_iff.mp hj
      subst hj0
      exact SessPhase.noConfusion hc)
  have h2 := MReach.step h1 hacq
  exact ⟨rfl, c7_at_most_one_active_producer h2 0 0 rfl rfl⟩

lemma hubOK_empty : HubOK emptyHub [] := by
  refine ⟨List.nodup_nil, fun c => ⟨?_, ?_, ?_, ?_⟩⟩ <;> simp [emptyHub]

lemma hubRegister_ok {h : Hub} {seen : List Nat} {c : Nat}
    (hok : HubOK h seen) (hfresh : c ∉ seen) :
    HubOK (hubRegister h c) (seen ++ [c]) := by
  obtain ⟨hnd, hprops⟩ := hok
  have hcnotin : c ∉ h.conns := fun hc => hfresh ((hprops c).2.2.1 hc)
  have hcc0 : h.closedCount c = 0 := by
    by_contra hne
    exact hfresh ((hprops c).2.2.2 (by omega))
  constructor
  · unfold hubRegister
    dsimp only
    rw [if_neg hcnotin]
    rw [List.nodup_append]
    refine ⟨hnd, List.nodup_singleton c, ?_⟩
    intro a ha hac
    rw [List.mem_singleton] at hac
    subst hac
    exact hcnotin ha
  · intro d
    unfold hubRegister
    dsimp only
    rw [if_neg hcnotin]
    refine ⟨(hprops d).1, ?_, ?_, ?_⟩
    · intro hd
      rcases List.mem_append.mp hd with hd1 | hd2
      · exact (hprops d).2.1 hd1
      · rw [List.mem_singleton] at hd2
        subst hd2
        exact hcc0
    · intro hd
      rcases List.mem_append.mp hd with hd1 | hd2
      · exact List.mem_append_left _ ((hprops d).2.2.1 hd1)
      · rw [List.mem_singleton] at hd2
        subst hd2
        exact List.mem_append_right _ (by simp)
    · intro hd
      exact List.mem_append_left _ ((hprops d).2.2.2 hd)

lemma hubUnregister_ok {h : Hub} {seen : List Nat} {c : Nat}
    (hok : HubOK h seen) : HubOK (hubUnregister h c) seen := by
  obtain ⟨hnd, hprops⟩ := hok
  unfold hubUnregister
  by_cases hc : c ∈ h.conns
  · rw [if_pos hc]
    constructor
    · exact hnd.filter _
    · intro d
      dsimp only
      by_cases hdc : d = c
      · subst hdc
        have hc0 := (hprops d).2.1 hc
        refine ⟨?_, ?_, ?_, ?_⟩
        · rw [if_pos rfl, hc0]
        · intro hmem
          rw [List.mem_filter] at hmem
          simp at hmem
        · intro hmem
          rw [List.mem_filter] at hmem
          simp at hmem
        · intro _
          exact (hprops d).2.2.1 hc
      · refine ⟨?_, ?_, ?_, ?_⟩
        · rw [if_neg hdc]
          exact (hprops d).1
        · intro hmem
          rw [if_neg hdc]
          rw [List.mem_filter] at hmem
          exact (hprops d).2.1 hmem.1
        · intro hmem
          rw [List.mem_filter] at hmem
          exact (hprops d).2.2.1 hmem.1
        · intro hge
          rw [if_neg hdc] at hge
          exact (hprops d).2.2.2 hge
  · rw [if_neg hc]
    exact ⟨hnd, hprops⟩

lemma hubRun_ok :
    ∀ (evs : List HEvent) (h : Hub) (seen : List Nat), HubOK h seen →
      (seen ++ regIds evs).Nodup → HubOK (hubRun h evs) (seen ++ regIds evs) := by
  intro evs
  induction evs with
  | nil =>
    intro h seen hok hnd
    simpa [hubRun, regIds] using hok
  | cons e es ih =>
    intro h seen hok hnd
    cases e with
    | reg c =>
      have hr : regIds (HEvent.reg c :: es) = c :: regIds es := rfl
      rw [hr] at hnd ⊢
      have hassoc : seen ++ c :: regIds es = (seen ++ [c]) ++ regIds es := by
        simp
      rw [hassoc] at hnd ⊢
      have hfresh : c ∉ seen := by
        have h1 : (seen ++ [c]).Nodup := List.Nodup.of_append_left hnd
        intro hcs
        rw [List.nodup_append] at h1
        exact h1.2.2 hcs (by simp)
      exact ih (hubRegister h c) (seen ++ [c]) (hubRegister_ok hok hfresh) hnd
    | unreg c =>
      have hr : regIds (HEvent.unreg c :: es) = regIds es := rfl
      rw [hr] at hnd ⊢
      exact ih (hubUnregister h c) seen (hubUnregister_ok hok) hnd
    | bcast m =>
      have hr : regIds (HEvent.bcast m :: es) = regIds es := rfl
      rw [hr] at hnd ⊢
      exact ih h seen hok hnd

/-- Claim C9: after any run of the hub event loop from the empty hub in
which each connection id is registered at most once (fresh connection
values, as the program produces), unregistering a present connection
removes it from the membership set and closes its mailbox exactly once
(from zero closes to one); unregistering an absent connection leaves the
membership set and every close count untouched; no mailbox is ever closed
twice; and no member of the resulting membership set has a closed
mailbox. -/
theorem c9_unregister_exactly_once (evs : List HEvent)
    (hnd : (regIds evs).Nodup) (c : Nat) :
    (c ∈ (hubRun emptyHub evs).conns →
        c ∉ (hubUnregister (hubRun emptyHub evs) c).conns ∧
          (hubUnregister (hubRun emptyHub evs) c).closedCount c = 1 ∧
          (hubRun emptyHub evs).closedCount c = 0) ∧
      (c ∉ (hubRun emptyHub evs).conns →
        (hubUnregister (hubRun emptyHub evs) c).conns =
            (hubRun emptyHub evs).conns ∧
          (hubUnregister (hubRun emptyHub evs) c).closedCount =
            (hubRun emptyHub evs).closedCount) ∧
      (hubUnregister (hubRun emptyHub evs) c).closedCount c ≤ 1 ∧
      ∀ d, d ∈ (hubUnregister (hubRun emptyHub evs) c).conns →
        (hubUnregister (hubRun emptyHub evs) c).closedCount d = 0 := by
  have hok : HubOK (hubRun emptyHub evs) (regIds evs) := by
    have hk := hubRun_ok evs emptyHub [] hubOK_empty (by simpa using hnd)
    simpa using hk
  obtain ⟨hndc, hprops⟩ := hok
  refine ⟨?_, ?_, ?_, ?_⟩
  · intro hc
    unfold hubUnregister
    rw [if_pos hc]
    dsimp only
    refine ⟨?_, ?_, (hprops c).2.1 hc⟩
    · intro hmem
      rw [List.mem_filter] at hmem
      simp at hmem
    · rw [if_pos rfl, (hprops c).2.1 hc]
  · intro hc
    unfold hubUnregister
    rw [if_neg hc]
    exact ⟨rfl, rfl⟩
  · unfold hubUnregister
    by_cases hc : c ∈ (hubRun emptyHub evs).conns
    · rw [if_pos hc]
      dsimp only
      rw [if_pos rfl, (hprops c).2.1 hc]
    · rw [if_neg hc]
      exact (hprops c).1
  · intro d hd
    unfold hubUnregister at hd ⊢
    by_cases hc : c ∈ (hubRun emptyHub evs).conns
    · rw [if_pos hc] at hd ⊢
      dsimp only at hd ⊢
      rw [List.mem_filter] at hd
      have hdc : d ≠ c := by simpa using hd.2
      rw [if_neg hdc]
      exact (hprops d).2.1 hd.1
    · rw [if_neg hc] at hd ⊢
      exact (hprops d).2.1 hd

/-- Witness for c9_unregister_exactly_once: register connection 5 and
unregister it: it leaves the set and its mailbox close count goes from 0
to exactly 1. -/
theorem c9_unregister_exactly_once_witness :
    (regIds [HEvent.reg 5]).Nodup ∧
      5 ∈ (hubRun emptyHub [HEvent.reg 5]).conns ∧
      5 ∉ (hubUnregister (hubRun emptyHub [HEvent.reg 5]) 5).conns ∧
      (hubUnregister (hubRun emptyHub [HEvent.reg 5]) 5).closedCount 5 = 1 :=
  ⟨by decide, by decide,
    ((c9_unregister_exactly_once [HEvent.reg 5] (by decide) 5).1
      (by decide)).1,
    ((c9_unregister_exactly_once [HEvent.reg 5] (by decide) 5).1
      (by decide)).2.1⟩

/-- Claim C8: a broadcast on a hub whose membership set is empty is a
no-op short-circuit: webSocketHandler.Write returns the zero byte count,
sends no message into the event loop's broadcast channel (hence no
per-connection work happens), and emits no subscriber-count signal. -/
theorem c8_empty_hub_write_noop (conns data : List Nat) (h : conns = []) :
    hubWrite conns data = (0, [], []) := by
  subst h
  rfl

/-- Witness for c8_empty_hub_write_noop on a concrete frame. -/
theorem c8_empty_hub_write_noop_witness :
    (([] : List Nat) = []) ∧ hubWrite [] [7, 8] = (0, [], []) :=
  ⟨rfl, c8_empty_hub_write_noop [] [7, 8] rfl⟩

lemma stepAppended_length {buf p : List Nat} (h : buf.length ≤ bufferSize) :
    (stepAppended buf p).length ≤ bufferSize := by
  unfold stepAppended
  rw [List.length_append, List.length_take]
  have hmin := Nat.min_le_left (bufferSize - buf.length) p.length
  omega

lemma cameraStep_length {buf p : List Nat} (h : buf.length ≤ bufferSize) :
    ((cameraStep buf p).1).length ≤ bufferSize := by
  have heta : cameraStep buf p = ((cameraStep buf p).1, (cameraStep buf p).2) := rfl
  cases hof : (cameraStep buf p).2 with
  | none =>
    rw [hof] at heta
    rw [cameraStep_no_emit heta]
    exact stepAppended_length h
  | some f =>
    rw [hof] at heta
    obtain ⟨rel, hsc, hrel, hf, hb⟩ := cameraStep_emit heta
    rw [hb]
    have hlen := stepAppended_length (p := p) h
    rw [List.length_drop]
    omega

lemma cameraRun_length :
    ∀ (reads : List (List Nat)) (buf : List Nat), buf.length ≤ bufferSize →
      ((cameraRun buf reads).1).length ≤ bufferSize := by
  intro reads
  induction reads with
  | nil => intro buf h; simpa [cameraRun] using h
  | cons p ps ih =>
    intro buf h
    simp only [cameraRun]
    exact ih (cameraStep buf p).1 (cameraStep_length h)

/-- Claim C10: the read-loop bookkeeping never overruns the fixed 256 KB
buffer: the bytes appended by one iteration are the incoming bytes capped
at the remaining capacity (the bounded copy silently drops the excess
instead of growing the buffer or faulting), and over any run the number
of valid bytes (currentPos) never exceeds the capacity. -/
theorem c10_buffer_bounded :
    (∀ buf p : List Nat, buf.length ≤ bufferSize →
        stepAppended buf p = (buf ++ p).take bufferSize) ∧
      ∀ reads : List (List Nat),
        ((cameraRun [] reads).1).length ≤ bufferSize := by
  constructor
  · intro buf p h
    unfold stepAppended
    rw [List.take_append_eq_append_take, List.take_of_length_le h]
  · intro reads
    exact cameraRun_length reads [] (Nat.zero_le _)

/-- Witness for c10_buffer_bounded at a concrete state and run. -/
theorem c10_buffer_bounded_witness :
    ([1] : List Nat).length ≤ bufferSize ∧
      stepAppended [1] [2] = (([1] ++ [2] : List Nat)).take bufferSize ∧
      ((cameraRun [] [[1, 2]]).1).length ≤ bufferSize :=
  ⟨by decide, c10_buffer_bounded.1 [1] [2] (by decide),
    c10_buffer_bounded.2 [[1, 2]]⟩

/-- Witness for c3_scan_window_starts_seplen_back at a concrete state:
buffer "5" with an incoming separator-carrying chunk. -/
theorem c3_scan_window_starts_seplen_back_witness :
    cameraStep [5] [0, 0, 0, 1, 7] =
      cameraStepW (fun c => c - sepLen) [5] [0, 0, 0, 1, 7] :=
  c3_scan_window_starts_seplen_back [5] [0, 0, 0, 1, 7]

end H264Streamer
